import Mathlib

/-!
Verification of the pluto HTTP routing and dispatch layer.

This file gives a shallow embedding, in Lean 4, of the routing core of the
pluto repository: the `Method` enumeration, the `Router` (a per-method table
of path patterns), the `Cors` response policy (`src/pluto/src/cors.rs`), and
the dispatch orchestrator `HttpServe::serve` (`src/src/pluto/src/http.rs`),
together with theorems checking the natural-language specification against
the embedded code.

Modelling conventions:
- Rust `HashMap<String, String>` (headers) and `HashMap<Method, _>` (the
  per-method route tables) are modelled as association lists together with
  `assocGet` / `assocInsert`, which have the same observable get/insert
  semantics (insert overwrites the entry with the same key).  Iteration
  order of a Rust `HashMap` is unspecified; the model fixes insertion order.
- Byte vectors (`Vec<u8>`) are modelled as `String` (the UTF-8 decoding of
  the bytes); every byte value produced by the code under scrutiny is the
  UTF-8 encoding of a string.
- `async` handler execution is modelled as a pure function call: a handler
  is a function `HttpRequest → Except HttpResponse HttpResponse`, mirroring
  `Result<HttpResponse, HttpResponse>` with `Except.error` as `Err`.
- A Rust `panic!` during route registration is modelled as `Except.error`.
-/

namespace Pluto

/-- Modelled from the spec: the `Method` enumeration lives in `method.rs`,
which is not under `src/` (only its callers are).  Per the spec it is the
closed enumeration {GET, HEAD, OPTIONS, POST, PUT, PATCH, DELETE} with
string conversion, and parsing an unrecognized verb string fails. -/
inductive Method
  | GET
  | HEAD
  | OPTIONS
  | POST
  | PUT
  | PATCH
  | DELETE
deriving DecidableEq

/-- Modelled from the spec: string conversion of a verb (Rust `as_str`,
`as_ref` and `Display` all produce the upper-case verb name; the unit tests
in `router.rs` compare `Method::GET.as_ref()` with strings such as the
sorted list DELETE, GET, HEAD, OPTIONS, PATCH, POST, PUT). -/
def Method.as_str : Method → String
  | .GET => "GET"
  | .HEAD => "HEAD"
  | .OPTIONS => "OPTIONS"
  | .POST => "POST"
  | .PUT => "PUT"
  | .PATCH => "PATCH"
  | .DELETE => "DELETE"

/-- Modelled from the spec: parsing a verb string (Rust `Method::from_str`);
parsing an unrecognized verb string fails (`none`). -/
def Method.from_str (s : String) : Option Method :=
  if s = "GET" then some .GET
  else if s = "HEAD" then some .HEAD
  else if s = "OPTIONS" then some .OPTIONS
  else if s = "POST" then some .POST
  else if s = "PUT" then some .PUT
  else if s = "PATCH" then some .PATCH
  else if s = "DELETE" then some .DELETE
  else none

/-- Lookup in an association list; observable behaviour of
`HashMap::get` (the first entry with the key wins; keys are unique in all
maps built by the code). -/
def assocGet {α : Type} {β : Type} [DecidableEq α] : List (α × β) → α → Option β
  | [], _ => none
  | p :: rest, k => if p.1 = k then some p.2 else assocGet rest k

/-- Insert in an association list; observable behaviour of
`HashMap::insert` (overwrites the entry with the same key, otherwise
appends). -/
def assocInsert {α : Type} {β : Type} [DecidableEq α] : List (α × β) → α → β → List (α × β)
  | [], k, v => [(k, v)]
  | p :: rest, k, v => if p.1 = k then (k, v) :: rest else p :: assocInsert rest k v

/-- Minimal JSON value model: the code builds flat objects out of strings
and numbers with the `json!` macro (`serde_json::Value`). -/
inductive Json
  | str (s : String)
  | num (n : Nat)
  | obj (fields : List (String × Json))

/-- String escaping used by `serde_json` when serializing; only the quote
and backslash cases can arise in the strings the code emits. -/
def jsonEscape (s : String) : String :=
  String.join (s.data.map (fun c =>
    if c = '"' then "\\\""
    else if c = '\\' then "\\\\"
    else String.singleton c))

mutual

/-- Compact serialization of a JSON value (`serde_json::Value::to_string`).
`serde_json` stores object members in a map ordered by key, so each
`Json.obj` in this file lists its fields in sorted key order. -/
def Json.render : Json → String
  | .str s => "\"" ++ jsonEscape s ++ "\""
  | .num n => Nat.repr n
  | .obj fields => "\x7b" ++ Json.renderFields fields ++ "\x7d"

/-- Comma-separated serialization of the members of a JSON object. -/
def Json.renderFields : List (String × Json) → String
  | [] => ""
  | (k, v) :: rest =>
    "\"" ++ jsonEscape k ++ "\":" ++ Json.render v ++
      (if rest.isEmpty then "" else "," ++ Json.renderFields rest)

end

/-- HeaderField from `http.rs`: one request header (name, value). -/
structure HeaderField where
  name : String
  value : String

/-- RawHttpRequest from `http.rs`: the wire request shape. -/
structure RawHttpRequest where
  method : String
  url : String
  headers : List HeaderField
  body : String

/-- HttpRequest from `http.rs`: the request as seen by a handler, enriched
with extracted parameters and the matched path. -/
structure HttpRequest where
  method : String
  url : String
  headers : List HeaderField
  body : String
  params : List (String × String)
  path : String

/-- The `From<RawHttpRequest> for HttpRequest` conversion in `http.rs`:
copies the wire fields and leaves `params` empty and `path` empty. -/
def RawHttpRequest.toHttpRequest (req : RawHttpRequest) : HttpRequest :=
  { method := req.method
    url := req.url
    headers := req.headers
    body := req.body
    params := []
    path := "" }

/-- HttpBody from `http.rs`: a response body is a JSON value, a UTF-8
string, or raw bytes. -/
inductive HttpBody
  | value (v : Json)
  | str (s : String)
  | raw (b : String)

/-- The `From<HttpBody> for Vec<u8>` conversion in `http.rs`. -/
def HttpBody.toBytes : HttpBody → String
  | .value j => j.render
  | .str s => s
  | .raw b => b

/-- HttpResponse from `http.rs`: the response produced by a handler. -/
structure HttpResponse where
  status_code : Nat
  headers : List (String × String)
  body : HttpBody

/-- `HttpResponse::add_raw_header`: inserts a header, overwriting any
same-named header already present. -/
def HttpResponse.add_raw_header (res : HttpResponse) (key : String) (val : String) : HttpResponse :=
  { res with headers := assocInsert res.headers key val }

/-- RawHttpResponse from `http.rs`: the wire response shape. -/
structure RawHttpResponse where
  status_code : Nat
  headers : List (String × String)
  body : String
  upgrade : Option Bool

/-- `RawHttpResponse::set_upgrade`. -/
def RawHttpResponse.set_upgrade (res : RawHttpResponse) (u : Bool) : RawHttpResponse :=
  { res with upgrade := some u }

/-- `RawHttpResponse::enrich_header`: inject a default `Content-Type` only
if absent, and always add the implementation-identifying header. -/
def RawHttpResponse.enrich_header (res : RawHttpResponse) : RawHttpResponse :=
  let withCt :=
    if (assocGet res.headers "Content-Type").isNone then
      { res with headers := assocInsert res.headers "Content-Type" "application/json" }
    else res
  { withCt with headers := assocInsert withCt.headers "X-Powered-By" "Pluto" }

/-- The `From<HttpResponse> for RawHttpResponse` conversion in `http.rs`:
serialize the body, set `upgrade` to `Some(false)`, enrich headers. -/
def HttpResponse.toRaw (res : HttpResponse) : RawHttpResponse :=
  RawHttpResponse.enrich_header
    { status_code := res.status_code
      headers := res.headers
      body := res.body.toBytes
      upgrade := some false }

/-- Modelled from the spec: `AllOrSome` lives in `all_or_some.rs`, which is
not under `src/`; per the spec an allow-origin is either any origin (`All`)
or a single literal origin. -/
inductive AllOrSome (α : Type)
  | All
  | Some (val : α)

/-- Cors from `cors.rs`: builder-configured response policy. -/
structure Cors where
  allow_origin : Option (AllOrSome String)
  allow_methods : List Method
  allow_headers : List String
  allow_credentials : Bool
  expose_headers : List String
  max_age : Option Nat
  vary_origin : Bool

/-- `Cors::new`: the empty policy. -/
def Cors.new : Cors :=
  { allow_origin := none
    allow_methods := []
    allow_headers := []
    allow_credentials := false
    expose_headers := []
    max_age := none
    vary_origin := false }

/-- `Cors::allow_origin`: set a literal allowed origin. -/
def Cors.withAllowOrigin (c : Cors) (origin : String) : Cors :=
  { c with allow_origin := some (AllOrSome.Some origin) }

/-- `Cors::any`: allow any origin. -/
def Cors.withAny (c : Cors) : Cors :=
  { c with allow_origin := some AllOrSome.All }

/-- `Cors::credentials`. -/
def Cors.withCredentials (c : Cors) (value : Bool) : Cors :=
  { c with allow_credentials := value }

/-- `Cors::exposed_headers`. -/
def Cors.withExposedHeaders (c : Cors) (headers : List String) : Cors :=
  { c with expose_headers := headers }

/-- `Cors::allow_headers`. -/
def Cors.withAllowHeaders (c : Cors) (headers : List String) : Cors :=
  { c with allow_headers := headers }

/-- `Cors::max_age`. -/
def Cors.withMaxAge (c : Cors) (value : Option Nat) : Cors :=
  { c with max_age := value }

/-- `Cors::allow_methods`. -/
def Cors.withAllowMethods (c : Cors) (methods : List Method) : Cors :=
  { c with allow_methods := methods }

/-- `Cors::merge` from `cors.rs`: if no allow-origin is configured the
response is returned untouched; otherwise the `Access-Control-*` headers
are set in a fixed order, each one overwriting any same-named header. -/
def Cors.merge (c : Cors) (response : HttpResponse) : HttpResponse :=
  match c.allow_origin with
  | none => response
  | some origin =>
    let originStr :=
      match origin with
      | AllOrSome.All => "*"
      | AllOrSome.Some o => o
    let response := response.add_raw_header "Access-Control-Allow-Origin" originStr
    let response :=
      if c.allow_credentials then
        response.add_raw_header "Access-Control-Allow-Credentials" "true"
      else response
    let response :=
      if !c.expose_headers.isEmpty then
        response.add_raw_header "Access-Control-Expose-Headers"
          (String.intercalate ", " c.expose_headers)
      else response
    let response :=
      if !c.allow_headers.isEmpty then
        response.add_raw_header "Access-Control-Allow-Headers"
          (String.intercalate ", " c.allow_headers)
      else response
    let response :=
      if !c.allow_methods.isEmpty then
        response.add_raw_header "Access-Control-Allow-Methods"
          (String.intercalate ", " (c.allow_methods.map Method.as_str))
      else response
    let response :=
      match c.max_age with
      | some ma => response.add_raw_header "Access-Control-Max-Age" (Nat.repr ma)
      | none => response
    if c.vary_origin then response.add_raw_header "Vary" "Origin" else response

/-- A handler: the polymorphic handler capability of `router.rs`, modelled
as a pure function (the `async` result is a fully resolved
`Result<HttpResponse, HttpResponse>`). -/
def HandlerFn : Type := HttpRequest → Except HttpResponse HttpResponse

/-- HandlerContainer from `router.rs`: a handler plus its upgrade flag. -/
structure HandlerContainer where
  upgrade : Bool
  handler : HandlerFn

/-- One segment of a registered route pattern: a literal segment or a named
parameter segment (syntax `:name`). -/
inductive Seg
  | lit (s : String)
  | param (name : String)
deriving DecidableEq

/-- Splitting a character list at every occurrence of a separator; the
semantics of Rust `str::split` (an empty input yields one empty piece, a
trailing separator yields a final empty piece). -/
def splitChars (c : Char) : List Char → List (List Char)
  | [] => [[]]
  | x :: xs =>
    let r := splitChars c xs
    if x = c then [] :: r
    else
      match r with
      | [] => [[x]]
      | y :: ys => (x :: y) :: ys

/-- Rust `str::split` on a string, as a list of strings. -/
def strSplit (s : String) (c : Char) : List String :=
  (splitChars c s.data).map String.mk

/-- Rust `str::ends_with("/")`: the final character is `/` (defined over
the character list so that it evaluates by kernel reduction). -/
def endsWithSlash (s : String) : Bool :=
  s.data.getLast? == some '/'

/-- Rust `Chars::next_back` / `String::pop`: remove the final character. -/
def dropLastChar (s : String) : String :=
  String.mk s.data.dropLast

/-- Rust `str::starts_with('/')`: the first character is `/`. -/
def startsWithSlash (s : String) : Bool :=
  s.data.head? == some '/'

/-- Rust `str::starts_with(':')` on a pattern piece. -/
def startsWithColon (s : String) : Bool :=
  s.data.head? == some ':'

/-- A path split into its `/`-separated segments (how the matchit trie
walks a path). -/
def pathSegs (s : String) : List String :=
  strSplit s '/'

/-- Parse a registered pattern string into segments: a piece beginning with
`:` is a named parameter, anything else is a literal. -/
def parsePattern (p : String) : List Seg :=
  (pathSegs p).map (fun s =>
    if startsWithColon s then Seg.param (String.mk (s.data.drop 1)) else Seg.lit s)

/-- Modelled from the spec: whether one pattern segment matches one
concrete path segment — a literal matches exactly itself, a named
parameter captures exactly one segment (the `matchit` trie is an external
crate, not under `src/`; its matching algorithm is taken from the spec). -/
def segMatches : Seg → String → Bool
  | .lit l, s => l == s
  | .param _, _ => true

/-- Modelled from the spec: whether a pattern matches a segmented path
(segment-wise, same number of segments). -/
def patMatches : List Seg → List String → Bool
  | [], [] => true
  | a :: ps, s :: ss => segMatches a s && patMatches ps ss
  | _, _ => false

/-- Extract the named parameters captured by a matching pattern. -/
def extractParams : List Seg → List String → List (String × String)
  | .param n :: ps, s :: ss => (n, s) :: extractParams ps ss
  | _ :: ps, _ :: ss => extractParams ps ss
  | _, _ => []

/-- Modelled from the spec: trie priority — exact literal segments take
precedence over parameter segments, decided at the first position where
the two patterns differ in kind. -/
def patPrefer : List Seg → List Seg → Bool
  | .lit _ :: _, .param _ :: _ => true
  | .param _ :: _, .lit _ :: _ => false
  | _ :: ps, _ :: qs => patPrefer ps qs
  | _, _ => false

/-- The result of a successful route lookup (`matchit::Match`): the
matched handler record and the extracted parameters. -/
structure MatchResult where
  value : HandlerContainer
  params : List (String × String)

/-- Modelled from the spec: `matchit::Router::at` — find the registered
pattern matching the path, literal segments taking precedence over
parameter segments, and extract the parameter values. -/
def treeAt (tree : List (List Seg × HandlerContainer)) (path : String) : Option MatchResult :=
  let segs := pathSegs path
  match tree.filter (fun e => patMatches e.1 segs) with
  | [] => none
  | e :: es =>
    let chosen := es.foldl (fun best cand => if patPrefer cand.1 best.1 then cand else best) e
    some { value := chosen.2, params := extractParams chosen.1 segs }

/-- Modelled from the spec: the `matchit` insertion conflict — within one
trie, no two registered patterns may be ambiguous for the same concrete
path; two patterns conflict when they have the same number of segments and
agree segment-wise (equal literals, or parameters in the same positions —
parameter names do not disambiguate). -/
def patConflicts : List Seg → List Seg → Bool
  | [], [] => true
  | .lit a :: ps, .lit b :: qs => a == b && patConflicts ps qs
  | .param _ :: ps, .param _ :: qs => patConflicts ps qs
  | _, _ => false

/-- Modelled from the spec: `matchit::Router::insert` — fails on a
conflicting registration, otherwise records the pattern. -/
def treeInsert (tree : List (List Seg × HandlerContainer)) (pat : List Seg)
    (hc : HandlerContainer) : Except String (List (List Seg × HandlerContainer)) :=
  if tree.any (fun e => patConflicts e.1 pat) then
    Except.error "insertion conflict with previously registered route"
  else
    Except.ok (tree ++ [(pat, hc)])

/-- Router from `router.rs`: a global path prefix (`prefix` in the
source), per-method route tables, the automatic-OPTIONS flag and the
optional fallback/global-OPTIONS handler. -/
structure Router where
  prefixStr : String
  trees : List (Method × List (List Seg × HandlerContainer))
  handle_options : Bool
  global_options : Option HandlerContainer

/-- `Router::new`: empty tables, automatic OPTIONS handling enabled, no
fallback handler, empty prefix. -/
def Router.new : Router :=
  { prefixStr := ""
    trees := []
    handle_options := true
    global_options := none }

/-- `Router::handle` from `router.rs`: registration.  The pattern must
begin with `/` (otherwise the code panics, modelled as `Except.error`);
the global prefix is prepended and one trailing `/` is stripped; an
insertion conflict in the method's trie also panics. -/
def Router.handle (r : Router) (path : String) (up : Bool) (method : Method)
    (h : HandlerFn) : Except String Router :=
  if !(startsWithSlash path) then
    Except.error ("expect path beginning with /, found: " ++ path)
  else
    let global_path := r.prefixStr ++ path
    let global_path := if endsWithSlash global_path then dropLastChar global_path else global_path
    match treeInsert ((assocGet r.trees method).getD []) (parsePattern global_path)
        { upgrade := up, handler := h } with
    | Except.error e => Except.error e
    | Except.ok t => Except.ok { r with trees := assocInsert r.trees method t }

/-- The inner matching step of `Router::lookup`: the trie lookup for the
verb, `none` when the verb has no table or the table has no match. -/
def routeFound (r : Router) (method : Method) (path : String) : Option MatchResult :=
  match assocGet r.trees method with
  | some tree => treeAt tree path
  | none => none

/-- `Router::lookup` from `router.rs`: returns the matched handler record
and parameters, or the formatted failure message (an empty path is
reported as `/`). -/
def Router.lookup (r : Router) (method : Method) (path : String) :
    Except String MatchResult :=
  match routeFound r method path with
  | some mr => Except.ok mr
  | none =>
    if path = "" then Except.error ("Cannot " ++ Method.as_str method ++ " " ++ "/")
    else Except.error ("Cannot " ++ Method.as_str method ++ " " ++ path)

/-- The `match path` expression inside `Router::allowed`: the verbs (as
strings) other than OPTIONS whose trie has a match for the path — all
verbs with a table when the path is the literal `*`. -/
def allowedBase (r : Router) (path : String) : List String :=
  if path = "*" then
    ((r.trees.map Prod.fst).filter (fun m => m != Method.OPTIONS)).map Method.as_str
  else
    (((r.trees.map Prod.fst).filter (fun m => m != Method.OPTIONS)).filter
      (fun m =>
        match assocGet r.trees m with
        | some node => (treeAt node path).isSome
        | none => false)).map Method.as_str

/-- `Router::allowed` from `router.rs`: the verbs (as strings) other than
OPTIONS with a registered, matching route for the path — all registered
verbs when the path is the literal `*` — with OPTIONS appended when the
result is non-empty. -/
def Router.allowed (r : Router) (path : String) : List String :=
  if (allowedBase r path).isEmpty then allowedBase r path
  else allowedBase r path ++ [Method.as_str Method.OPTIONS]

/-- HttpServe from `http.rs`: the per-invocation dispatch orchestrator — a
router, an optional Cors policy, and whether this invocation arrived on
the read-only (`query`) entry point. -/
structure HttpServe where
  router : Router
  cors_policy : Option Cors
  is_query : Bool

/-- `HttpServe::internal_server_error` (the `Err` payload). -/
def internal_server_error_res : HttpResponse :=
  { status_code := 500
    headers := []
    body := HttpBody.value (Json.obj
      [("message", Json.str "Internal server error"), ("statusCode", Json.num 500)]) }

/-- `HttpServe::not_found_error` (the `Err` payload): the 404 response
whose body carries the lookup failure message. -/
def not_found_error_res (message : String) : HttpResponse :=
  { status_code := 404
    headers := []
    body := HttpBody.value (Json.obj
      [("error", Json.str "Not Found"), ("message", Json.str message),
       ("statusCode", Json.num 404)]) }

/-- `HttpServe::get_path`: strip everything from the first `?` onward,
then strip one trailing `/` if present. -/
def get_path (url : String) : String :=
  let path := (strSplit url '?').headD ""
  if endsWithSlash path then dropLastChar path else path

/-- `HttpServe::unwrap_response`: both `Ok` and `Err` carry a valid
response; collapse them. -/
def unwrap_response : Except HttpResponse HttpResponse → HttpResponse
  | Except.ok res => res
  | Except.error err_res => err_res

/-- `HttpServe::add_cors_to_res`: apply the Cors merge when a policy is
configured. -/
def add_cors_to_res (s : HttpServe) (res : HttpResponse) : HttpResponse :=
  match s.cors_policy with
  | some cors => cors.merge res
  | none => res

/-- `HttpServe::use_res_plugins`: the response post-processing chain
(currently only the Cors merge). -/
def use_res_plugins (s : HttpServe) (res : HttpResponse) : HttpResponse :=
  add_cors_to_res s res

/-- `HttpServe::build_and_execute_request`: enrich the request with the
matched path and parameters, run the handler, unwrap, apply response
plugins, convert to wire form and set the upgrade flag to the handler's
declared value. -/
def build_and_execute_request (s : HttpServe) (req : RawHttpRequest) (path : String)
    (lk : MatchResult) (up : Bool) : RawHttpResponse :=
  let hreq := { req.toHttpRequest with path := path, params := lk.params }
  let res := unwrap_response (lk.value.handler hreq)
  let res := use_res_plugins s res
  (HttpResponse.toRaw res).set_upgrade up

/-- The `Some(ref handler)` arm of the no-match OPTIONS branch of
`HttpServe::serve`: invoke the fallback/global-OPTIONS handler on the bare
converted request, unwrap, convert to wire form (note: no `use_res_plugins`
call here, unlike `build_and_execute_request`) and set the upgrade flag to
the fallback's declared value. -/
def fallbackOptionsResponse (hc : HandlerContainer) (req : RawHttpRequest) : RawHttpResponse :=
  (HttpResponse.toRaw (unwrap_response (hc.handler req.toHttpRequest))).set_upgrade hc.upgrade

/-- The `None` arm of the no-match OPTIONS branch of `HttpServe::serve`:
synthesize a 204 response, apply response plugins, and set
`Access-Control-Allow-Methods` to the comma-joined allowed list when the
plugins did not already set it. -/
def synthesizeOptionsResponse (s : HttpServe) (allow : List String) : RawHttpResponse :=
  let res : HttpResponse := { status_code := 204, headers := [], body := HttpBody.str "" }
  let res := use_res_plugins s res
  let res :=
    if (assocGet res.headers "Access-Control-Allow-Methods").isNone then
      { res with
        headers := assocInsert res.headers "Access-Control-Allow-Methods" (String.intercalate "," allow) }
    else res
  HttpResponse.toRaw res

/-- `HttpServe::serve` from `http.rs`: parse the method (500 on failure),
normalize the path, look up the route; on a match enforce the read-only
gating rule then execute; on a miss answer OPTIONS pre-flight when
enabled and satisfiable, otherwise 404 with the lookup message. -/
def HttpServe.serve (s : HttpServe) (req : RawHttpRequest) : RawHttpResponse :=
  match Method.from_str req.method with
  | none => HttpResponse.toRaw internal_server_error_res
  | some method =>
    let path := get_path req.url
    match Router.lookup s.router method path with
    | Except.error message =>
      if req.method == Method.as_str Method.OPTIONS && s.router.handle_options then
        let allow := s.router.allowed path
        if !allow.isEmpty then
          match s.router.global_options with
          | some handler => fallbackOptionsResponse handler req
          | none => synthesizeOptionsResponse s allow
        else HttpResponse.toRaw (not_found_error_res message)
      else HttpResponse.toRaw (not_found_error_res message)
    | Except.ok lk =>
      let up := lk.value.upgrade
      if s.is_query && up then
        (HttpResponse.toRaw internal_server_error_res).set_upgrade up
      else build_and_execute_request s req path lk up

/-!
Auxiliary definitions used by the theorems: claim-side predicates stated
from the wording of the spec, to be compared with the embedded code.
-/

/-- Formalisation of the path-normalization wording of the spec: strip
everything from the first `?` onward, then strip one trailing `/` if
present. -/
def specNormalizePath (url : String) : String :=
  let p := String.mk (url.data.takeWhile (fun ch => ch != '?'))
  if endsWithSlash p then dropLastChar p else p

/-- Claim-side predicate for `Router::allowed`: the verb has a registered
route matching the path (for the special literal `*`: the verb has any
registration at all). -/
def methodHasMatch (r : Router) (m : Method) (path : String) : Bool :=
  if path = "*" then (assocGet r.trees m).isSome
  else
    match assocGet r.trees m with
    | some node => (treeAt node path).isSome
    | none => false

/-!
Helper lemmas about the association-list operations and string splitting.
-/

theorem assocGet_insert_self {α β : Type} [DecidableEq α] (m : List (α × β)) (k : α) (v : β) :
    assocGet (assocInsert m k v) k = some v := by
  induction m with
  | nil => simp [assocInsert, assocGet]
  | cons p rest ih =>
    by_cases h : p.1 = k
    · simp [assocInsert, h, assocGet]
    · simp [assocInsert, h, assocGet, ih]

theorem assocGet_insert_ne {α β : Type} [DecidableEq α] (m : List (α × β)) (k k2 : α) (v : β)
    (h : k2 ≠ k) : assocGet (assocInsert m k v) k2 = assocGet m k2 := by
  induction m with
  | nil => simp [assocInsert, assocGet, Ne.symm h]
  | cons p rest ih =>
    by_cases hp : p.1 = k
    · simp [assocInsert, hp, assocGet, Ne.symm h]
    · simp [assocInsert, hp, assocGet, ih]

theorem assocGet_isSome_iff {α β : Type} [DecidableEq α] (m : List (α × β)) (k : α) :
    (assocGet m k).isSome = true ↔ k ∈ m.map Prod.fst := by
  induction m with
  | nil => simp [assocGet]
  | cons p rest ih =>
    by_cases h : p.1 = k
    · simp [assocGet, h]
    · simp [assocGet, h, ih, Ne.symm h]

theorem splitChars_ne_nil (c : Char) (l : List Char) : splitChars c l ≠ [] := by
  induction l with
  | nil => simp [splitChars]
  | cons x xs ih =>
    simp only [splitChars]
    by_cases h : x = c
    · simp [h]
    · simp only [h, if_false]
      cases hr : splitChars c xs with
      | nil => simp
      | cons y ys => simp

theorem splitChars_headD (c : Char) (l : List Char) :
    (splitChars c l).headD [] = l.takeWhile (fun ch => ch != c) := by
  induction l with
  | nil => simp [splitChars]
  | cons x xs ih =>
    by_cases h : x = c
    · simp [splitChars, h, List.takeWhile_cons]
    · cases hr : splitChars c xs with
      | nil => exact absurd hr (splitChars_ne_nil c xs)
      | cons y ys =>
        rw [hr] at ih
        simp only [List.headD] at ih
        simp [splitChars, h, hr, List.takeWhile_cons, bne, h, ih]

theorem get_path_eq_spec (url : String) : get_path url = specNormalizePath url := by
  unfold get_path specNormalizePath strSplit
  have h1 : ((splitChars '?' url.data).map String.mk).headD "" =
      String.mk ((splitChars '?' url.data).headD []) := by
    cases hr : splitChars '?' url.data with
    | nil => exact absurd hr (splitChars_ne_nil _ _)
    | cons y ys => simp
  rw [h1, splitChars_headD]

theorem as_str_inj : ∀ a b : Method, Method.as_str a = Method.as_str b → a = b := by
  intro a b h
  cases a <;> cases b <;> first | rfl | exact absurd h (by decide)


theorem mem_allowedBase (r : Router) (path : String) (m : Method) (hm : m ≠ Method.OPTIONS) :
    Method.as_str m ∈ allowedBase r path ↔ methodHasMatch r m path = true := by
  unfold allowedBase methodHasMatch
  by_cases hp : path = "*"
  · simp only [hp, if_true, List.mem_map, List.mem_filter]
    constructor
    · rintro ⟨m2, ⟨hmem, _⟩, heq⟩
      have hmm : m2 = m := as_str_inj m2 m heq
      subst hmm
      exact (assocGet_isSome_iff r.trees m2).mpr (List.mem_map.mpr hmem)
    · intro hh
      exact ⟨m, ⟨List.mem_map.mp ((assocGet_isSome_iff r.trees m).mp hh),
        bne_iff_ne.mpr hm⟩, rfl⟩
  · simp only [hp, if_false, List.mem_map, List.mem_filter]
    constructor
    · rintro ⟨m2, ⟨⟨_, _⟩, hcond⟩, heq⟩
      have hmm : m2 = m := as_str_inj m2 m heq
      subst hmm
      exact hcond
    · intro hh
      refine ⟨m, ⟨⟨?_, bne_iff_ne.mpr hm⟩, hh⟩, rfl⟩
      cases hget : assocGet r.trees m with
      | none => rw [hget] at hh; exact absurd hh (by simp)
      | some node =>
        exact List.mem_map.mp ((assocGet_isSome_iff r.trees m).mp (by rw [hget]; rfl))

theorem allowedBase_ne_nil_iff (r : Router) (path : String) :
    allowedBase r path ≠ [] ↔
      ∃ m : Method, m ≠ Method.OPTIONS ∧ methodHasMatch r m path = true := by
  constructor
  · intro hne
    rcases List.exists_mem_of_ne_nil _ hne with ⟨s, hs⟩
    have hsplit : ∃ m2 : Method, m2 ≠ Method.OPTIONS ∧ Method.as_str m2 = s := by
      unfold allowedBase at hs
      by_cases hp : path = "*"
      · simp only [hp, if_true, List.mem_map, List.mem_filter] at hs
        rcases hs with ⟨m2, ⟨_, hne2⟩, heq⟩
        exact ⟨m2, bne_iff_ne.mp hne2, heq⟩
      · simp only [hp, if_false, List.mem_map, List.mem_filter] at hs
        rcases hs with ⟨m2, ⟨⟨_, hne2⟩, _⟩, heq⟩
        exact ⟨m2, bne_iff_ne.mp hne2, heq⟩
    rcases hsplit with ⟨m2, hne2, heq⟩
    refine ⟨m2, hne2, ?_⟩
    exact (mem_allowedBase r path m2 hne2).mp (heq ▸ hs)
  · rintro ⟨m, hne, hmatch⟩
    exact List.ne_nil_of_mem ((mem_allowedBase r path m hne).mpr hmatch)

/-- C4: for every router and path, `allowed(path)` contains exactly the
verbs other than OPTIONS that have a registered route matching the path
(the special literal `*` yielding all verbs with any registration, except
OPTIONS), with OPTIONS present if and only if some such verb matches, and
it is empty exactly when no non-OPTIONS verb matches. -/
theorem allowed_spec (r : Router) (path : String) :
    (∀ m : Method, m ≠ Method.OPTIONS →
      (Method.as_str m ∈ r.allowed path ↔ methodHasMatch r m path = true)) ∧
    (Method.as_str Method.OPTIONS ∈ r.allowed path ↔
      ∃ m : Method, m ≠ Method.OPTIONS ∧ methodHasMatch r m path = true) ∧
    (r.allowed path = [] ↔
      ∀ m : Method, m ≠ Method.OPTIONS → methodHasMatch r m path = false) := by
  unfold Router.allowed
  cases hbase : allowedBase r path with
  | nil =>
    have hforall : ∀ m : Method, m ≠ Method.OPTIONS → methodHasMatch r m path = false := by
      intro m hm
      by_contra hc
      have ht : methodHasMatch r m path = true := by
        cases hmm : methodHasMatch r m path
        · exact absurd hmm hc
        · rfl
      have hmem : Method.as_str m ∈ allowedBase r path := (mem_allowedBase r path m hm).mpr ht
      rw [hbase] at hmem
      exact absurd hmem (List.not_mem_nil _)
    refine ⟨?_, ?_, ?_⟩
    · intro m hm
      simp only [List.isEmpty_nil, if_true, List.not_mem_nil, false_iff]
      intro ht
      have := hforall m hm
      rw [ht] at this
      exact absurd this (by simp)
    · simp only [List.isEmpty_nil, if_true, List.not_mem_nil, false_iff]
      rintro ⟨m, hm, hmatch⟩
      have := hforall m hm
      rw [hmatch] at this
      exact absurd this (by simp)
    · simp only [List.isEmpty_nil, if_true, true_iff]
      exact hforall
  | cons a l =>
    have hex : ∃ m : Method, m ≠ Method.OPTIONS ∧ methodHasMatch r m path = true := by
      refine (allowedBase_ne_nil_iff r path).mp ?_
      rw [hbase]
      simp
    refine ⟨?_, ?_, ?_⟩
    · intro m hm
      have hmemIff := mem_allowedBase r path m hm
      rw [hbase] at hmemIff
      have hnm : Method.as_str m ≠ Method.as_str Method.OPTIONS :=
        fun h => hm (as_str_inj m Method.OPTIONS h)
      simp only [List.isEmpty_cons, Bool.false_eq_true, if_false, List.mem_append,
        List.mem_singleton, hnm, or_false]
      exact hmemIff
    · simp only [List.isEmpty_cons, Bool.false_eq_true, if_false, List.mem_append,
        List.mem_singleton]
      constructor
      · intro _
        exact hex
      · intro _
        exact Or.inr trivial
    · simp only [List.isEmpty_cons, Bool.false_eq_true, if_false]
      constructor
      · intro h
        exact absurd h (by simp)
      · intro hall
        rcases hex with ⟨m, hm, hmatch⟩
        rw [hall m hm] at hmatch
        exact absurd hmatch (by simp)


theorem add_raw_header_status (res : HttpResponse) (k v : String) :
    (res.add_raw_header k v).status_code = res.status_code := rfl

theorem merge_preserves_status (c : Cors) (res : HttpResponse) :
    (c.merge res).status_code = res.status_code := by
  unfold Cors.merge
  cases c.allow_origin with
  | none => rfl
  | some o =>
    simp only []
    split <;> split <;> split <;> split <;> split <;> split <;> rfl

theorem use_res_plugins_status (s : HttpServe) (res : HttpResponse) :
    (use_res_plugins s res).status_code = res.status_code := by
  unfold use_res_plugins add_cors_to_res
  cases s.cors_policy with
  | none => rfl
  | some c => exact merge_preserves_status c res

theorem enrich_header_status (r : RawHttpResponse) :
    (RawHttpResponse.enrich_header r).status_code = r.status_code := by
  unfold RawHttpResponse.enrich_header
  split <;> rfl

theorem toRaw_status (res : HttpResponse) :
    (HttpResponse.toRaw res).status_code = res.status_code := by
  unfold HttpResponse.toRaw
  rw [enrich_header_status]

theorem enrich_header_upgrade (r : RawHttpResponse) :
    (RawHttpResponse.enrich_header r).upgrade = r.upgrade := by
  unfold RawHttpResponse.enrich_header
  split <;> rfl

theorem enrich_header_get (r : RawHttpResponse) (k : String)
    (h1 : k ≠ "Content-Type") (h2 : k ≠ "X-Powered-By") :
    assocGet (RawHttpResponse.enrich_header r).headers k = assocGet r.headers k := by
  unfold RawHttpResponse.enrich_header
  split
  · rw [assocGet_insert_ne _ _ _ _ h2, assocGet_insert_ne _ _ _ _ h1]
  · rw [assocGet_insert_ne _ _ _ _ h2]

theorem toRaw_get (res : HttpResponse) (k : String)
    (h1 : k ≠ "Content-Type") (h2 : k ≠ "X-Powered-By") :
    assocGet (HttpResponse.toRaw res).headers k = assocGet res.headers k := by
  unfold HttpResponse.toRaw
  rw [enrich_header_get _ _ h1 h2]

/-- C5 (amended): for every method and path with no registered match,
`lookup` fails with the message `Cannot <METHOD> <path>` (capital C),
reporting the path as `/` when the path is empty, and `serve` (when the
OPTIONS-synthesis case does not apply) converts that failure into a 404
response whose body is the not-found JSON carrying this message. -/
theorem serve_no_route_404 (s : HttpServe) (req : RawHttpRequest) (m : Method)
    (hm : Method.from_str req.method = some m)
    (hnone : routeFound s.router m (get_path req.url) = none)
    (hno : req.method ≠ "OPTIONS" ∨ s.router.handle_options = false ∨
      s.router.allowed (get_path req.url) = []) :
    Router.lookup s.router m (get_path req.url) =
      Except.error ("Cannot " ++ Method.as_str m ++ " " ++
        (if get_path req.url = "" then "/" else get_path req.url)) ∧
    HttpServe.serve s req =
      HttpResponse.toRaw (not_found_error_res ("Cannot " ++ Method.as_str m ++ " " ++
        (if get_path req.url = "" then "/" else get_path req.url))) ∧
    (HttpServe.serve s req).status_code = 404 := by
  have hlook : Router.lookup s.router m (get_path req.url) =
      Except.error ("Cannot " ++ Method.as_str m ++ " " ++
        (if get_path req.url = "" then "/" else get_path req.url)) := by
    unfold Router.lookup
    rw [hnone]
    by_cases hp : get_path req.url = "" <;> simp [hp]
  have hserve : HttpServe.serve s req =
      HttpResponse.toRaw (not_found_error_res ("Cannot " ++ Method.as_str m ++ " " ++
        (if get_path req.url = "" then "/" else get_path req.url))) := by
    unfold HttpServe.serve
    rw [hm]
    simp only [hlook]
    rcases hno with hA | hB | hC
    · have hbeq : (req.method == Method.as_str Method.OPTIONS) = false :=
        beq_eq_false_iff_ne.mpr (by simpa [Method.as_str] using hA)
      simp [hbeq]
    · simp [hB]
    · simp [hC]
  refine ⟨hlook, hserve, ?_⟩
  rw [hserve, toRaw_status]
  rfl

/-- C6: for every OPTIONS request with no direct route match, when
automatic OPTIONS is enabled, the allowed set is non-empty and no fallback
handler is configured, `serve` returns the synthesized response: status
204, response plugins (the Cors merge) applied, and
`Access-Control-Allow-Methods` set to the comma-joined allowed list
whenever the merge did not already set it. -/
theorem serve_synthesizes_options (s : HttpServe) (req : RawHttpRequest)
    (hopt : req.method = "OPTIONS")
    (hho : s.router.handle_options = true)
    (hnone : routeFound s.router Method.OPTIONS (get_path req.url) = none)
    (hallow : s.router.allowed (get_path req.url) ≠ [])
    (hglobal : s.router.global_options = none) :
    HttpServe.serve s req = synthesizeOptionsResponse s (s.router.allowed (get_path req.url)) ∧
    (HttpServe.serve s req).status_code = 204 ∧
    (assocGet (use_res_plugins s
        { status_code := 204, headers := [], body := HttpBody.str "" }).headers
        "Access-Control-Allow-Methods" = none →
      assocGet (HttpServe.serve s req).headers "Access-Control-Allow-Methods" =
        some (String.intercalate "," (s.router.allowed (get_path req.url)))) := by
  have hm : Method.from_str req.method = some Method.OPTIONS := by rw [hopt]; rfl
  have hlook : Router.lookup s.router Method.OPTIONS (get_path req.url) =
      Except.error (if get_path req.url = ""
        then "Cannot " ++ Method.as_str Method.OPTIONS ++ " " ++ "/"
        else "Cannot " ++ Method.as_str Method.OPTIONS ++ " " ++ get_path req.url) := by
    unfold Router.lookup
    rw [hnone]
    by_cases hp : get_path req.url = "" <;> simp [hp]
  have hne : (s.router.allowed (get_path req.url)).isEmpty = false := by
    cases h : s.router.allowed (get_path req.url) with
    | nil => exact absurd h hallow
    | cons a l => rfl
  have hserve : HttpServe.serve s req =
      synthesizeOptionsResponse s (s.router.allowed (get_path req.url)) := by
    unfold HttpServe.serve
    rw [hm]
    simp only [hlook, hopt, hho, hglobal, hne, Method.as_str]
    simp
  refine ⟨hserve, ?_, ?_⟩
  · rw [hserve]
    unfold synthesizeOptionsResponse
    rw [toRaw_status]
    split
    · rw [use_res_plugins_status]
    · rw [use_res_plugins_status]
  · intro hnoacam
    rw [hserve]
    unfold synthesizeOptionsResponse
    dsimp only
    rw [hnoacam]
    simp only [Option.isNone_none, if_true]
    rw [toRaw_get _ _ (by decide) (by decide)]
    exact assocGet_insert_self _ _ _

/-- C1: a handler registered with upgrade = true that matches on the
read-only (query) entry point is never executed: the result of `serve` is
a fixed 500 error response, independent of the matched handler, with the
wire upgrade flag set to true. -/
theorem serve_query_blocks_upgrade (s : HttpServe) (req : RawHttpRequest) (m : Method)
    (lk : MatchResult)
    (hm : Method.from_str req.method = some m)
    (hq : s.is_query = true)
    (hl : Router.lookup s.router m (get_path req.url) = Except.ok lk)
    (hu : lk.value.upgrade = true) :
    HttpServe.serve s req =
      (HttpResponse.toRaw internal_server_error_res).set_upgrade true ∧
    (HttpServe.serve s req).status_code = 500 ∧
    (HttpServe.serve s req).upgrade = some true := by
  have h1 : HttpServe.serve s req =
      (HttpResponse.toRaw internal_server_error_res).set_upgrade true := by
    unfold HttpServe.serve
    rw [hm]
    simp only [hl, hq, hu, Bool.and_self, if_true]
  refine ⟨h1, ?_, ?_⟩
  · rw [h1]
    rw [RawHttpResponse.set_upgrade, toRaw_status]
    rfl
  · rw [h1]
    rfl

/-- C2 (amended): when `serve` invokes the configured fallback handler for
an unmatched OPTIONS request, the fallback's result receives the same
unwrap and upgrade-flag treatment as a normal match — the wire upgrade flag
is the fallback's declared flag — but, unlike a normal match, the Cors
merge is NOT applied to the fallback's response: it is converted directly
to wire form. -/
theorem serve_fallback_treatment (s : HttpServe) (req : RawHttpRequest) (hc : HandlerContainer)
    (hopt : req.method = "OPTIONS")
    (hho : s.router.handle_options = true)
    (hnone : routeFound s.router Method.OPTIONS (get_path req.url) = none)
    (hallow : s.router.allowed (get_path req.url) ≠ [])
    (hglobal : s.router.global_options = some hc) :
    HttpServe.serve s req = fallbackOptionsResponse hc req ∧
    (HttpServe.serve s req).upgrade = some hc.upgrade := by
  have hm : Method.from_str req.method = some Method.OPTIONS := by rw [hopt]; rfl
  have hlook : Router.lookup s.router Method.OPTIONS (get_path req.url) =
      Except.error (if get_path req.url = ""
        then "Cannot " ++ Method.as_str Method.OPTIONS ++ " " ++ "/"
        else "Cannot " ++ Method.as_str Method.OPTIONS ++ " " ++ get_path req.url) := by
    unfold Router.lookup
    rw [hnone]
    by_cases hp : get_path req.url = "" <;> simp [hp]
  have hne : (s.router.allowed (get_path req.url)).isEmpty = false := by
    cases h : s.router.allowed (get_path req.url) with
    | nil => exact absurd h hallow
    | cons a l => rfl
  have hserve : HttpServe.serve s req = fallbackOptionsResponse hc req := by
    unfold HttpServe.serve
    rw [hm]
    simp only [hlook, hopt, hho, hglobal, hne, Method.as_str]
    simp
  refine ⟨hserve, ?_⟩
  rw [hserve]
  rfl

/-- C10: the HttpRequest handed to the fallback/global-OPTIONS handler by
`serve` always has an empty params map and an empty path string — the
parameter extraction and matched-path enrichment happen only in
`build_and_execute_request`, never for the fallback handler. -/
theorem serve_fallback_request_shape (s : HttpServe) (req : RawHttpRequest) (hc : HandlerContainer)
    (hopt : req.method = "OPTIONS")
    (hho : s.router.handle_options = true)
    (hnone : routeFound s.router Method.OPTIONS (get_path req.url) = none)
    (hallow : s.router.allowed (get_path req.url) ≠ [])
    (hglobal : s.router.global_options = some hc) :
    HttpServe.serve s req =
      (HttpResponse.toRaw (unwrap_response (hc.handler
        { method := req.method, url := req.url, headers := req.headers, body := req.body,
          params := [], path := "" }))).set_upgrade hc.upgrade ∧
    (RawHttpRequest.toHttpRequest req).params = [] ∧
    (RawHttpRequest.toHttpRequest req).path = "" := by
  have hm : Method.from_str req.method = some Method.OPTIONS := by rw [hopt]; rfl
  have hlook : Router.lookup s.router Method.OPTIONS (get_path req.url) =
      Except.error (if get_path req.url = ""
        then "Cannot " ++ Method.as_str Method.OPTIONS ++ " " ++ "/"
        else "Cannot " ++ Method.as_str Method.OPTIONS ++ " " ++ get_path req.url) := by
    unfold Router.lookup
    rw [hnone]
    by_cases hp : get_path req.url = "" <;> simp [hp]
  have hne : (s.router.allowed (get_path req.url)).isEmpty = false := by
    cases h : s.router.allowed (get_path req.url) with
    | nil => exact absurd h hallow
    | cons a l => rfl
  have hserve : HttpServe.serve s req = fallbackOptionsResponse hc req := by
    unfold HttpServe.serve
    rw [hm]
    simp only [hlook, hopt, hho, hglobal, hne, Method.as_str]
    simp
  exact ⟨by rw [hserve]; rfl, rfl, rfl⟩

/-- C7: a Cors policy whose allow-origin is unset leaves every response
entirely unchanged, regardless of how its other fields are configured. -/
theorem cors_merge_no_origin_noop (c : Cors) (res : HttpResponse)
    (h : c.allow_origin = none) : c.merge res = res := by
  unfold Cors.merge
  rw [h]

/-- The concrete policy of C8: allow-origin `*`, allow-methods POST and
PUT, max-age 3600. -/
def c8policy : Cors :=
  ((Cors.new.withAllowOrigin "*").withAllowMethods [Method.POST, Method.PUT]).withMaxAge
    (some 3600)

/-- C8: merging the policy above into any response sets exactly
`Access-Control-Allow-Origin: *`, `Access-Control-Allow-Methods: POST, PUT`
and `Access-Control-Max-Age: 3600` — overwriting any same-named headers —
and changes nothing else. -/
theorem cors_merge_c8_exact (res : HttpResponse) :
    assocGet (c8policy.merge res).headers "Access-Control-Allow-Origin" = some "*" ∧
    assocGet (c8policy.merge res).headers "Access-Control-Allow-Methods" = some "POST, PUT" ∧
    assocGet (c8policy.merge res).headers "Access-Control-Max-Age" = some "3600" ∧
    (∀ k : String, k ≠ "Access-Control-Allow-Origin" → k ≠ "Access-Control-Allow-Methods" →
      k ≠ "Access-Control-Max-Age" →
      assocGet (c8policy.merge res).headers k = assocGet res.headers k) := by
  have hmerge : c8policy.merge res =
      { res with headers := (assocInsert (assocInsert (assocInsert res.headers "Access-Control-Allow-Origin" "*") "Access-Control-Allow-Methods" "POST, PUT") "Access-Control-Max-Age" "3600") } := rfl
  refine ⟨?_, ?_, ?_, ?_⟩
  · rw [hmerge]
    show assocGet (assocInsert (assocInsert (assocInsert res.headers
      "Access-Control-Allow-Origin" "*") "Access-Control-Allow-Methods" "POST, PUT")
      "Access-Control-Max-Age" "3600") "Access-Control-Allow-Origin" = some "*"
    rw [assocGet_insert_ne _ _ _ _ (by decide), assocGet_insert_ne _ _ _ _ (by decide),
      assocGet_insert_self]
  · rw [hmerge]
    show assocGet (assocInsert (assocInsert (assocInsert res.headers
      "Access-Control-Allow-Origin" "*") "Access-Control-Allow-Methods" "POST, PUT")
      "Access-Control-Max-Age" "3600") "Access-Control-Allow-Methods" = some "POST, PUT"
    rw [assocGet_insert_ne _ _ _ _ (by decide), assocGet_insert_self]
  · rw [hmerge]
    exact assocGet_insert_self _ _ _
  · intro k h1 h2 h3
    rw [hmerge]
    show assocGet (assocInsert (assocInsert (assocInsert res.headers
      "Access-Control-Allow-Origin" "*") "Access-Control-Allow-Methods" "POST, PUT")
      "Access-Control-Max-Age" "3600") k = assocGet res.headers k
    rw [assocGet_insert_ne _ _ _ _ h3, assocGet_insert_ne _ _ _ _ h2,
      assocGet_insert_ne _ _ _ _ h1]

/-- C3 counterexample: the root path does not stay `/` — `get_path`
normalizes `"/"` to the empty string. -/
theorem get_path_root_cex : get_path "/" = "" ∧ get_path "/" ≠ "/" := by
  constructor
  · rfl
  · intro h
    have h2 : ("" : String) = "/" := h
    exact absurd h2 (by decide)

/-- C3 (amended): for every url, path normalization strips everything from
the first `?` onward and then strips one trailing `/` if present; the root
path `/` therefore normalizes to the empty string (not to `/`). -/
theorem get_path_normalization (url : String) :
    get_path url = specNormalizePath url ∧ get_path "/" = "" :=
  ⟨get_path_eq_spec url, rfl⟩

/-- C9: registration fails (the code panics, modelled as `Except.error`)
exactly when the pattern does not start with `/` or the normalized pattern
(prefix prepended, one trailing `/` stripped) conflicts with an entry
already registered in the same method's trie; on success the normalized
pattern is appended to exactly that method's table and every other
method's table is unchanged. -/
theorem handle_spec (r : Router) (path : String) (up : Bool) (m : Method) (h : HandlerFn) :
    ((Router.handle r path up m h).isOk = true ↔
      (startsWithSlash path = true ∧
        ((assocGet r.trees m).getD []).all
          (fun e => !(patConflicts e.1 (parsePattern
            (if endsWithSlash (r.prefixStr ++ path) then dropLastChar (r.prefixStr ++ path)
             else r.prefixStr ++ path)))) = true)) ∧
    (∀ r2 : Router, Router.handle r path up m h = Except.ok r2 →
      assocGet r2.trees m = some
        (((assocGet r.trees m).getD []) ++ [(parsePattern
          (if endsWithSlash (r.prefixStr ++ path) then dropLastChar (r.prefixStr ++ path)
           else r.prefixStr ++ path), { upgrade := up, handler := h })]) ∧
      ∀ m2 : Method, m2 ≠ m → assocGet r2.trees m2 = assocGet r.trees m2) := by
  have hbool : ∀ b : Bool, ¬ b = true → b = false := by decide
  by_cases hsw : startsWithSlash path = true
  · by_cases hconf : (((assocGet r.trees m).getD []).any
        (fun e => patConflicts e.1 (parsePattern
          (if endsWithSlash (r.prefixStr ++ path) then dropLastChar (r.prefixStr ++ path)
           else r.prefixStr ++ path)))) = true
    · have herr : Router.handle r path up m h =
          Except.error "insertion conflict with previously registered route" := by
        unfold Router.handle treeInsert
        simp only [hsw, hconf]
        simp
      rw [herr]
      constructor
      · constructor
        · intro habs
          exact absurd habs (by simp [Except.isOk, Except.toBool])
        · rintro ⟨_, hall⟩
          rcases List.any_eq_true.mp hconf with ⟨e, he, hpe⟩
          have hfa := List.all_eq_true.mp hall e he
          rw [hpe] at hfa
          exact absurd hfa (by simp)
      · intro r2 habs
        exact absurd habs (by simp)
    · have hconf2 := hbool _ hconf
      have hok : Router.handle r path up m h = Except.ok { r with trees := assocInsert r.trees m ((assocGet r.trees m).getD [] ++ [(parsePattern (if endsWithSlash (r.prefixStr ++ path) then dropLastChar (r.prefixStr ++ path) else r.prefixStr ++ path), { upgrade := up, handler := h })]) } := by
        unfold Router.handle treeInsert
        simp only [hsw, hconf2]
        simp
      rw [hok]
      constructor
      · constructor
        · intro _
          refine ⟨hsw, List.all_eq_true.mpr ?_⟩
          intro e he
          have hfe := hbool _ (List.any_eq_false.mp hconf2 e he)
          rw [hfe]
          rfl
        · intro _
          rfl
      · intro r2 heq
        injection heq with h2
        subst h2
        constructor
        · exact assocGet_insert_self _ _ _
        · intro m2 hm2
          exact assocGet_insert_ne _ _ _ _ hm2
  · have hsw2 := hbool _ hsw
    have herr : Router.handle r path up m h =
        Except.error ("expect path beginning with /, found: " ++ path) := by
      unfold Router.handle
      simp only [hsw2]
      simp
    rw [herr]
    constructor
    · constructor
      · intro habs
        exact absurd habs (by simp [Except.isOk, Except.toBool])
      · rintro ⟨hcontra, _⟩
        rw [hcontra] at hsw2
        exact absurd hsw2 (by simp)
    · intro r2 habs
      exact absurd habs (by simp)

/-!
Concrete routers, requests and handlers used by the counterexamples and
the witnesses below.
-/

/-- A handler returning a plain 200 response. -/
def okHandler : HandlerFn :=
  fun _ => Except.ok { status_code := 200, headers := [], body := HttpBody.str "ok" }

/-- A fallback handler returning a 200 response with empty headers. -/
def fallbackHandler : HandlerFn :=
  fun _ => Except.ok { status_code := 200, headers := [], body := HttpBody.str "fallback" }

/-- A router with one GET route at `/hello` whose handler requires
upgrade. -/
def wUpgradeRouter : Router :=
  { prefixStr := ""
    trees := [(Method.GET, [(parsePattern "/hello", { upgrade := true, handler := okHandler })])]
    handle_options := true
    global_options := none }

/-- The read-only dispatcher over `wUpgradeRouter`. -/
def wUpgradeServe : HttpServe :=
  { router := wUpgradeRouter, cors_policy := none, is_query := true }

/-- A GET request for `/hello`. -/
def wGetHelloReq : RawHttpRequest :=
  { method := "GET", url := "/hello", headers := [], body := "" }

/-- The lookup result for GET `/hello` on `wUpgradeRouter`. -/
def wUpgradeMatch : MatchResult :=
  { value := { upgrade := true, handler := okHandler }, params := [] }

theorem serve_query_blocks_upgrade_witness :
    HttpServe.serve wUpgradeServe wGetHelloReq =
      (HttpResponse.toRaw internal_server_error_res).set_upgrade true :=
  (serve_query_blocks_upgrade wUpgradeServe wGetHelloReq Method.GET wUpgradeMatch
    rfl rfl rfl rfl).1
/-- A router with a non-upgrading GET route at `/hello` and a configured
fallback/global-OPTIONS handler. -/
def cxFallbackRouter : Router :=
  { prefixStr := ""
    trees := [(Method.GET, [(parsePattern "/hello", { upgrade := false, handler := okHandler })])]
    handle_options := true
    global_options := some { upgrade := false, handler := fallbackHandler } }

/-- A Cors policy with an allow-origin configured. -/
def cxCors : Cors := Cors.new.withAllowOrigin "*"

/-- A read-only dispatcher with the fallback router and the Cors policy. -/
def cxFallbackServe : HttpServe :=
  { router := cxFallbackRouter, cors_policy := some cxCors, is_query := true }

/-- An OPTIONS request for `/hello`. -/
def wOptionsHelloReq : RawHttpRequest :=
  { method := "OPTIONS", url := "/hello", headers := [], body := "" }

/-- C2 counterexample: with a Cors policy carrying an allow-origin
configured, the response produced through the fallback/global-OPTIONS
handler does NOT receive the Cors headers (no
`Access-Control-Allow-Origin` in the wire response), although merging the
same policy into the fallback handler's response would have added it. -/
theorem serve_fallback_skips_cors_cex :
    assocGet (HttpServe.serve cxFallbackServe wOptionsHelloReq).headers
      "Access-Control-Allow-Origin" = none ∧
    assocGet ((cxCors.merge
      { status_code := 200, headers := [], body := HttpBody.str "fallback" }).headers)
      "Access-Control-Allow-Origin" = some "*" :=
  ⟨rfl, rfl⟩

theorem serve_fallback_treatment_witness :
    HttpServe.serve cxFallbackServe wOptionsHelloReq =
      fallbackOptionsResponse { upgrade := false, handler := fallbackHandler }
        wOptionsHelloReq :=
  (serve_fallback_treatment cxFallbackServe wOptionsHelloReq
    { upgrade := false, handler := fallbackHandler } rfl rfl rfl (by decide) rfl).1

theorem serve_fallback_request_shape_witness :
    HttpServe.serve cxFallbackServe wOptionsHelloReq =
      (HttpResponse.toRaw (unwrap_response (fallbackHandler
        { method := "OPTIONS", url := "/hello", headers := [], body := "",
          params := [], path := "" }))).set_upgrade false :=
  (serve_fallback_request_shape cxFallbackServe wOptionsHelloReq
    { upgrade := false, handler := fallbackHandler } rfl rfl rfl (by decide) rfl).1

theorem allowed_spec_witness :
    Method.as_str Method.GET ∈ wUpgradeRouter.allowed "/hello" :=
  ((allowed_spec wUpgradeRouter "/hello").1 Method.GET (by decide)).mpr rfl

/-- C5 counterexample: the lookup failure message begins with capital
`Cannot`, not the lowercase `cannot <METHOD> <path>` form of the claim. -/
theorem lookup_message_capital_cex :
    Router.lookup Router.new Method.DELETE "/nowhere" =
      Except.error "Cannot DELETE /nowhere" ∧
    ("Cannot DELETE /nowhere" : String) ≠ "cannot DELETE /nowhere" :=
  ⟨rfl, by decide⟩

/-- A DELETE request for an unregistered path. -/
def wDeleteReq : RawHttpRequest :=
  { method := "DELETE", url := "/nowhere", headers := [], body := "" }

theorem serve_no_route_404_witness :
    (HttpServe.serve wUpgradeServe wDeleteReq).status_code = 404 :=
  (serve_no_route_404 wUpgradeServe wDeleteReq Method.DELETE rfl rfl
    (Or.inl (by decide))).2.2

/-- A router with GET and POST routes at `/hello`, automatic OPTIONS, no
fallback handler. -/
def wTwoRouter : Router :=
  { prefixStr := ""
    trees := [(Method.GET, [(parsePattern "/hello", { upgrade := false, handler := okHandler })]),
              (Method.POST, [(parsePattern "/hello", { upgrade := false, handler := okHandler })])]
    handle_options := true
    global_options := none }

/-- A dispatcher over `wTwoRouter` with no Cors policy. -/
def wTwoServe : HttpServe :=
  { router := wTwoRouter, cors_policy := none, is_query := true }

theorem serve_synthesizes_options_witness :
    (HttpServe.serve wTwoServe wOptionsHelloReq).status_code = 204 ∧
    assocGet (HttpServe.serve wTwoServe wOptionsHelloReq).headers
      "Access-Control-Allow-Methods" = some "GET,POST,OPTIONS" :=
  ⟨(serve_synthesizes_options wTwoServe wOptionsHelloReq rfl rfl rfl (by decide) rfl).2.1,
   (serve_synthesizes_options wTwoServe wOptionsHelloReq rfl rfl rfl (by decide) rfl).2.2 rfl⟩

/-- A Cors policy with methods, credentials and max-age configured but no
allow-origin. -/
def wNoOriginCors : Cors :=
  ((Cors.new.withAllowMethods [Method.POST, Method.PUT]).withCredentials true).withMaxAge
    (some 60)

/-- A response with a pre-existing unrelated header. -/
def wPlainRes : HttpResponse :=
  { status_code := 200, headers := [("Foo", "bar")], body := HttpBody.str "x" }

theorem cors_merge_no_origin_noop_witness :
    Cors.merge wNoOriginCors wPlainRes = wPlainRes :=
  cors_merge_no_origin_noop wNoOriginCors wPlainRes rfl

/-- A response with a pre-existing Access-Control header (to be
overwritten) and an unrelated header (to be preserved). -/
def wPreCorsRes : HttpResponse :=
  { status_code := 200
    headers := [("Access-Control-Allow-Origin", "old"), ("Other", "v")]
    body := HttpBody.str "" }

theorem cors_merge_c8_exact_witness :
    assocGet (c8policy.merge wPreCorsRes).headers "Access-Control-Allow-Origin" = some "*" ∧
    assocGet (c8policy.merge wPreCorsRes).headers "Other" = some "v" :=
  ⟨(cors_merge_c8_exact wPreCorsRes).1,
   by
     have hk := (cors_merge_c8_exact wPreCorsRes).2.2.2 "Other" (by decide) (by decide)
       (by decide)
     rw [hk]
     rfl⟩

/-- The router obtained by registering GET `/hello/` (trailing slash
normalized away) on an empty router. -/
def wRegisteredRouter : Router :=
  { prefixStr := ""
    trees := [(Method.GET, [(parsePattern "/hello", { upgrade := false, handler := okHandler })])]
    handle_options := true
    global_options := none }

theorem handle_spec_witness :
    assocGet wRegisteredRouter.trees Method.GET =
      some [(parsePattern "/hello", { upgrade := false, handler := okHandler })] ∧
    assocGet wRegisteredRouter.trees Method.POST = none := by
  have hr := (handle_spec Router.new "/hello/" false Method.GET okHandler).2
    wRegisteredRouter rfl
  exact ⟨by rw [hr.1]; rfl, by rw [hr.2 Method.POST (by decide)]; rfl⟩

end Pluto
